import Mathlib

/-!
Verification development for the ASX Share Monitor application
(`ASX_Share_Monitor.py`).  The Python code is shallowly embedded:

* Python strings are modelled as `List Char`; `str.strip`, `str.upper`,
  `str.split` and file-line iteration are modelled by executable functions
  below (uppercasing is modelled at ASCII granularity, which covers every
  string the program manipulates).
* Prices are modelled as rationals (`ℚ`); the provider response is a record
  of the fields the program reads.
* A Python function that can raise is modelled with `Option`: `none` is a
  raised exception.
* Python `dict`s keyed by ticker are modelled as association lists with
  overwrite-on-update, which preserves key uniqueness.
-/

/-- A Python string as a list of characters. -/
def pstr (s : String) : List Char := s.data

/-- The whitespace characters removed by Python `str.strip()`
(ASCII subset: space, tab, newline, carriage return, vertical tab, form feed). -/
def PY_WS : List Char := [' ', '\t', '\n', '\r', '\x0b', '\x0c']

/-- Whether `str.strip()` removes the character `c`. -/
def isPyWs (c : Char) : Bool := PY_WS.contains c

/-- ASCII model of Python's per-character uppercasing (`str.upper`). -/
def py_char_upper : Char → Char
  | 'a' => 'A' | 'b' => 'B' | 'c' => 'C' | 'd' => 'D' | 'e' => 'E' | 'f' => 'F'
  | 'g' => 'G' | 'h' => 'H' | 'i' => 'I' | 'j' => 'J' | 'k' => 'K' | 'l' => 'L'
  | 'm' => 'M' | 'n' => 'N' | 'o' => 'O' | 'p' => 'P' | 'q' => 'Q' | 'r' => 'R'
  | 's' => 'S' | 't' => 'T' | 'u' => 'U' | 'v' => 'V' | 'w' => 'W' | 'x' => 'X'
  | 'y' => 'Y' | 'z' => 'Z'
  | c => c

/-- The uppercase ASCII letters, the possible outputs of `py_char_upper`
other than the input itself. -/
def UPPER_AZ : List Char :=
  ['A', 'B', 'C', 'D', 'E', 'F', 'G', 'H', 'I', 'J', 'K', 'L', 'M',
   'N', 'O', 'P', 'Q', 'R', 'S', 'T', 'U', 'V', 'W', 'X', 'Y', 'Z']

/-- Python `str.upper()`. -/
def pyUpper (s : List Char) : List Char := s.map py_char_upper

/-- Python `str.strip(chars)`: drop characters satisfying `p` from both ends. -/
def pyStripBy (p : Char → Bool) (s : List Char) : List Char :=
  ((s.dropWhile p).reverse.dropWhile p).reverse

/-- Python `str.strip()` (whitespace strip). -/
def pyStrip (s : List Char) : List Char := pyStripBy isPyWs s

/-- Python `str.strip('.')` as used by `add_stock`. -/
def pyStripDots (s : List Char) : List Char := pyStripBy (· == '.') s

/-- Iterating a Python text file as lines (with terminators subsequently
stripped): split on a newline, a carriage return, or a CRLF pair, the
universal-newline behaviour of text-mode reads.  The accumulator holds the
current line reversed.  A trailing empty segment may be produced for content
ending in a terminator; all consumers filter empty/irrelevant lines, matching
the Python behaviour. -/
def py_split_lines : List Char → List Char → List (List Char)
  | [], acc => [acc.reverse]
  | '\r' :: '\n' :: rest, acc => acc.reverse :: py_split_lines rest []
  | '\n' :: rest, acc => acc.reverse :: py_split_lines rest []
  | '\r' :: rest, acc => acc.reverse :: py_split_lines rest []
  | c :: rest, acc => py_split_lines rest (c :: acc)

/-- Python `str.split(sep)` for a one-character separator. -/
def py_split_char (sep : Char) : List Char → List Char → List (List Char)
  | [], acc => [acc.reverse]
  | c :: rest, acc =>
    if c = sep then acc.reverse :: py_split_char sep rest []
    else py_split_char sep rest (c :: acc)

/-- Python string `<` (lexicographic comparison by code point). -/
def lex_lt : List Char → List Char → Bool
  | [], [] => false
  | [], _ :: _ => true
  | _ :: _, [] => false
  | a :: as, b :: bs => if a < b then true else if b < a then false else lex_lt as bs

/-- Insert into a strictly `lex_lt`-ascending list, dropping duplicates. -/
def insert_sd (x : List Char) : List (List Char) → List (List Char)
  | [] => [x]
  | y :: ys =>
    if lex_lt x y then x :: y :: ys
    else if lex_lt y x then y :: insert_sd x ys
    else y :: ys

/-- Python `sorted(list(set(l)))` for a list of strings: the strictly
ascending enumeration of the distinct elements. -/
def sorted_dedup (l : List (List Char)) : List (List Char) := l.foldr insert_sd []

/-- Python `'\n'.join(l)`. -/
def join_nl : List (List Char) → List Char
  | [] => []
  | [x] => x
  | x :: y :: rest => x ++ '\n' :: join_nl (y :: rest)

/-- Python dict lookup on an association list (first matching key). -/
def dict_get {β : Type} : List (List Char × β) → List Char → Option β
  | [], _ => none
  | (k, v) :: rest, t => if k = t then some v else dict_get rest t

/-- Python `d[k] = v` on an association list: overwrite the existing binding
or append a fresh one. -/
def dict_update {β : Type} : List (List Char × β) → List Char → β → List (List Char × β)
  | [], k, v => [(k, v)]
  | (k0, v0) :: rest, k, v =>
    if k0 = k then (k0, v) :: rest else (k0, v0) :: dict_update rest k v

/-! ## Configuration constants (lines 22–41 of the source). -/

/-- The display keys of `TIME_RANGES`. -/
def TIME_RANGE_KEYS : List (List Char) :=
  [pstr "6 Months", pstr "30 Days", pstr "7 Days", pstr "24 Hrs", pstr "6 Hrs", pstr "10 Mins"]

/-- `DEFAULT_TIME_RANGE`. -/
def DEFAULT_TIME_RANGE : List Char := pstr "30 Days"

/-- `TIMEZONES`. -/
def TIMEZONES : List (List Char) :=
  [pstr "Australia/Sydney", pstr "Australia/Brisbane", pstr "Australia/Perth"]

/-- `DEFAULT_TIMEZONE`. -/
def DEFAULT_TIMEZONE : List Char := pstr "Australia/Sydney"

/-! ## Symbol-list persistence (`load_stocks` / `save_stocks`, lines 55–66). -/

/-- The normalisation both `save_stocks` and `load_stocks` perform:
`sorted(list(set(t.strip().upper() for t in tickers if t.strip())))`. -/
def normalize_tickers (ts : List (List Char)) : List (List Char) :=
  sorted_dedup ((ts.filter (fun t => !(pyStrip t).isEmpty)).map (fun t => pyUpper (pyStrip t)))

/-- `save_stocks`: the file content written for a ticker list
(`'\n'.join(unique_tickers)`). -/
def save_stocks_content (ts : List (List Char)) : List Char :=
  join_nl (normalize_tickers ts)

/-- `load_stocks` applied to an existing file's content. -/
def load_stocks_content (content : List Char) : List (List Char) :=
  sorted_dedup (((py_split_lines content []).filter
      (fun l => !(pyStrip l).isEmpty)).map (fun l => pyUpper (pyStrip l)))

/-- `load_stocks`: `none` models an absent `my_stocks.txt`. -/
def load_stocks (file : Option (List Char)) : List (List Char) :=
  match file with
  | none => [pstr "BHP.AX", pstr "PL8.AX"]
  | some content => load_stocks_content content

/-! ## Metric calculator (`_run_fetch`, lines 820–870). -/

/-- The fields `_run_fetch` reads from the provider for one ticker:
`info.get('regularMarketPrice')`, `info.get('regularMarketOpen')`, the
long-resolution Close series `hist` and the short-resolution (1-day/1-minute)
Close series `hourly_hist`. -/
structure ProviderData where
  regularMarketPrice : Option ℚ
  regularMarketOpen : Option ℚ
  hist : List ℚ
  hourly_hist : List ℚ
deriving DecidableEq

/-- The `change_color` field computed at line 851. -/
inductive ChangeColor
  | green
  | red
deriving DecidableEq

/-- The per-ticker success dictionary built at lines 853–863 (the fields the
claims are about; the history series is carried in `ProviderData`). -/
structure Snapshot where
  price : ℚ
  open_price : ℚ
  change_abs : ℚ
  daily_change_pct : ℚ
  hourly_change_abs : ℚ
  hourly_change_pct : ℚ
  color : ChangeColor
deriving DecidableEq

/-- Lines 828–839: resolve scalar price/open, falling back to the last/first
value of the long-resolution history; `none` models the raised `ValueError`
when the history is empty. -/
def resolve_price_open (pd : ProviderData) : Option (ℚ × ℚ) :=
  match pd.regularMarketPrice, pd.regularMarketOpen with
  | some p, some o => some (p, o)
  | _, _ =>
    if pd.hist.isEmpty then none
    else some (pd.hist.getLastD 0, pd.hist.headD 0)

/-- Lines 844–849: the rolling hourly change pair `(abs, pct)`.
`hh.getD (hh.length - 60) 0` is `hourly_hist.iloc[-60]`. -/
def hourly_metrics (price : ℚ) (hh : List ℚ) : ℚ × ℚ :=
  if 60 ≤ hh.length ∧ 0 < price then
    (price - hh.getD (hh.length - 60) 0,
     (price - hh.getD (hh.length - 60) 0) / hh.getD (hh.length - 60) 0 * 100)
  else (0, 0)

/-- The body of the per-ticker `try` block (lines 828–863): `none` models the
raised `ValueError` when no usable price data exists. -/
def compute_snapshot (pd : ProviderData) : Option Snapshot :=
  match resolve_price_open pd with
  | none => none
  | some (price, open_price) =>
    some { price := price
           open_price := open_price
           change_abs := price - open_price
           daily_change_pct := (price - open_price) / open_price * 100
           hourly_change_abs := (hourly_metrics price pd.hourly_hist).1
           hourly_change_pct := (hourly_metrics price pd.hourly_hist).2
           color := if 0 ≤ price - open_price then ChangeColor.green else ChangeColor.red }

/-- A value of `new_data[ticker]`: either the success dictionary or the
error-flagged snapshot `\x7b"price": None, "error": True\x7d` produced by the
`except` arm (line 868). -/
inductive FetchEntry
  | ok (s : Snapshot)
  | error
deriving DecidableEq

/-- The per-ticker result including the `except` arm: any exception inside the
`try` block becomes the error-flagged snapshot. -/
def entry_of (pd : ProviderData) : FetchEntry :=
  match compute_snapshot pd with
  | none => FetchEntry.error
  | some s => FetchEntry.ok s

/-- One iteration of the `_run_fetch` loop for a ticker: `provider t = none`
models the provider call itself raising. -/
def fetch_one (provider : List Char → Option ProviderData) (t : List Char) : FetchEntry :=
  match provider t with
  | none => FetchEntry.error
  | some pd => entry_of pd

/-- `_run_fetch`: iterate the tracked tickers, building the `new_data`
dictionary; every per-ticker failure is converted into an error entry and the
loop continues. -/
def run_fetch (provider : List Char → Option ProviderData)
    (tickers : List (List Char)) : List (List Char × FetchEntry) :=
  tickers.foldl (fun d t => dict_update d t (fetch_one provider t)) []

/-- The row tag assigned by `update_main_monitor` (lines 624–631): `'error'`
for an error-flagged snapshot, else `'gain'`/`'loss'` by the sign of
`change_abs`. -/
inductive RowTag
  | gain
  | loss
  | error
deriving DecidableEq

/-- Lines 624–631. -/
def row_tag (e : FetchEntry) : RowTag :=
  match e with
  | FetchEntry.error => RowTag.error
  | FetchEntry.ok s => if 0 ≤ s.change_abs then RowTag.gain else RowTag.loss

/-! ## Settings persistence (`load_settings`, lines 68–82). -/

/-- The settings record. -/
structure Settings where
  time_range : List Char
  timezone : List Char
deriving DecidableEq

/-- The defaults installed at lines 70–73. -/
def default_settings : Settings :=
  { time_range := DEFAULT_TIME_RANGE, timezone := DEFAULT_TIMEZONE }

/-- Lines 77–81: apply one parsed `key=value` pair, ignoring unrecognized
keys and values. -/
def apply_setting (s : Settings) (k v : List Char) : Settings :=
  if k = pstr "time_range" ∧ v ∈ TIME_RANGE_KEYS then { s with time_range := v }
  else if k = pstr "timezone" ∧ v ∈ TIMEZONES then { s with timezone := v }
  else s

/-- The `for key, value in lines` loop: tuple unpacking of a split with other
than two parts raises `ValueError`, modelled by `none`; the exception aborts
the whole call. -/
def apply_settings_lines (parts : List (List (List Char))) (s : Settings) : Option Settings :=
  match parts with
  | [] => some s
  | p :: rest =>
    match p with
    | [k, v] => apply_settings_lines rest (apply_setting s k v)
    | _ => none

/-- Line 76: the per-line parse of a settings file content,
`lines = [line.strip().split('=') for line in f if '=' in line]`. -/
def settings_kv_parts (content : List Char) : List (List (List Char)) :=
  ((py_split_lines content []).filter (fun l => l.contains '=')).map
    (fun l => py_split_char '=' (pyStrip l) [])

/-- The per-key selection the parsing loop realises for one settings field:
the last parsed `[key, value]` pair for this `key` whose `value` is in the
`allowed` enumeration wins; with no recognized assignment the result is the
starting `dflt`.  (Each loop iteration touches at most one field, so the two
fields evolve independently.) -/
def last_recognized (key : List Char) (allowed : List (List Char)) :
    List Char → List (List (List Char)) → List Char
  | dflt, [] => dflt
  | dflt, [k, v] :: rest =>
    last_recognized key allowed (if k = key ∧ v ∈ allowed then v else dflt) rest
  | dflt, _ :: rest => last_recognized key allowed dflt rest

/-- `load_settings` applied to the content of an existing `timezone.txt`
(`none` result models a raised exception): the parsed lines followed by
the unpacking loop over the defaults. -/
def load_settings_content (content : List Char) : Option Settings :=
  apply_settings_lines (settings_kv_parts content) default_settings

/-- `load_settings`: `none` models an absent `timezone.txt`. -/
def load_settings (file : Option (List Char)) : Option Settings :=
  match file with
  | none => some default_settings
  | some content => load_settings_content content

/-! ## Adding a ticker (`add_stock`, lines 745–764). -/

/-- Lines 746–751: trim and uppercase the entry text, append `.AX` when the
(nonempty) result contains no dot, then strip leading/trailing dots. -/
def add_stock_normalize (entry : List Char) : List Char :=
  let t1 := pyUpper (pyStrip entry)
  let t2 := if t1 ≠ [] ∧ '.' ∉ t1 then t1 ++ pstr ".AX" else t1
  pyStripDots t2

/-- Lines 753–754: append the normalized ticker to the tracked list when it is
nonempty and not already tracked. -/
def add_stock (tickers : List (List Char)) (entry : List Char) : List (List Char) :=
  let t := add_stock_normalize entry
  if t ≠ [] ∧ t ∉ tickers then tickers ++ [t] else tickers

/-! ## Application state and `remove_stock` (lines 766–789), with the
aggregate view's row source (`update_main_monitor`, lines 606–649). -/

/-- The ambient mutable state the claims touch: the tracked-ticker list, the
chart-visibility dict and the snapshot table `all_stock_data`.  The dicts are
association lists with unique keys (all writes go through `dict_update`). -/
structure AppState where
  tickers : List (List Char)
  line_visibility : List (List Char × Bool)
  all_stock_data : List (List Char × FetchEntry)

/-- `remove_stock` for a selected tab labelled `sel`: returns the new state
and, when a removal happened, the `my_stocks.txt` content written by the
`save_stocks` call.  The Main-Monitor tab and unknown labels are rejected. -/
def remove_stock (st : AppState) (sel : List Char) : AppState × Option (List Char) :=
  if sel = pstr "Main Monitor" then (st, none)
  else if sel ∈ st.tickers then
    let st' : AppState :=
      { tickers := st.tickers.erase sel
        line_visibility :=
          if st.line_visibility.any (fun p => p.1 = sel) then
            st.line_visibility.filter (fun p => p.1 ≠ sel)
          else st.line_visibility
        all_stock_data := st.all_stock_data }
    (st', some (save_stocks_content st'.tickers))
  else (st, none)

/-- The tickers `update_main_monitor` renders, in order: line 616,
`sorted(self.all_stock_data.keys())` (dict keys are unique, so the
dedup-insertion sort is plain sorting here). -/
def main_monitor_tickers (st : AppState) : List (List Char) :=
  sorted_dedup (st.all_stock_data.map Prod.fst)

/-! ## Aggregate-table sort state
(`_treeview_sort_column` lines 458–496, `on_main_tree_header_click`
lines 498–524, re-application on redraw at line 649). -/

/-- The sortable columns of the main tree. -/
inductive SortCol
  | visible
  | ticker
  | price
  | open_col
  | daily_change_pct
  | daily_change_abs
  | hourly_change_pct
  | hourly_change_abs
deriving DecidableEq

/-- The persistent sort state (`self.sort_column`, `self.sort_reverse`). -/
structure SortState where
  sort_column : SortCol
  sort_reverse : Bool
deriving DecidableEq

/-- The state effect of `_treeview_sort_column(tree, col, reverse)`
(lines 492–493): after sorting the rows with `(col, reverse)`, it stores
`col` and the *negation* of the direction it just applied. -/
def treeview_sort_column_state (col : SortCol) (reverse : Bool) : SortState :=
  { sort_column := col, sort_reverse := !reverse }

/-- The sort behaviour of a redraw (`update_main_monitor`, line 649):
re-applies `_treeview_sort_column` with the stored state.  Returns the
`(column, direction)` actually applied to the displayed rows, and the state
afterwards. -/
def update_main_monitor_sort (s : SortState) : (SortCol × Bool) × SortState :=
  ((s.sort_column, s.sort_reverse),
   treeview_sort_column_state s.sort_column s.sort_reverse)

/-- `on_main_tree_header_click` (lines 516–524): compute the reverse flag,
store the clicked column and flag, then trigger `update_main_monitor`. -/
def on_main_tree_header_click (s : SortState) (col : SortCol) : (SortCol × Bool) × SortState :=
  let reverse_flag := if col = s.sort_column then !s.sort_reverse else false
  update_main_monitor_sort { sort_column := col, sort_reverse := reverse_flag }

/-- A concrete provider used to exercise `run_fetch`: it answers for
`AAA.AX` and raises for every other symbol. -/
def provW : List Char → Option ProviderData :=
  fun t => if t = pstr "AAA.AX" then some ⟨some 10, some 8, [1], []⟩ else none

/-! ## Helper lemmas for the fetch dictionary. -/

theorem dict_get_update_self {β : Type} (d : List (List Char × β)) (k : List Char) (v : β) :
    dict_get (dict_update d k v) k = some v := by
  induction d with
  | nil => simp [dict_update, dict_get]
  | cons p rest ih =>
    obtain ⟨k0, v0⟩ := p
    by_cases hk : k0 = k
    · simp [dict_update, hk, dict_get]
    · simp [dict_update, hk, dict_get, ih]

theorem dict_get_update_other {β : Type} (d : List (List Char × β)) (k t : List Char) (v : β)
    (h : k ≠ t) : dict_get (dict_update d k v) t = dict_get d t := by
  induction d with
  | nil => simp [dict_update, dict_get, h]
  | cons p rest ih =>
    obtain ⟨k0, v0⟩ := p
    by_cases hk : k0 = k
    · subst hk
      simp [dict_update, dict_get, h]
    · by_cases ht : k0 = t
      · subst ht
        rw [dict_update, if_neg hk]
        simp [dict_get]
      · simp [dict_update, hk, dict_get, ht, ih]

theorem run_fetch_lookup_aux (provider : List Char → Option ProviderData)
    (ts : List (List Char)) (d : List (List Char × FetchEntry)) (t : List Char)
    (h : t ∈ ts ∨ dict_get d t = some (fetch_one provider t)) :
    dict_get (ts.foldl (fun d t => dict_update d t (fetch_one provider t)) d) t
      = some (fetch_one provider t) := by
  induction ts generalizing d with
  | nil =>
    rcases h with h | h
    · exact absurd h (List.not_mem_nil t)
    · simpa using h
  | cons x xs ih =>
    simp only [List.foldl_cons]
    apply ih
    by_cases hx : x = t
    · subst hx
      exact Or.inr (dict_get_update_self d x (fetch_one provider x))
    · rcases h with h | h
      · rcases List.mem_cons.mp h with h | h
        · exact absurd h.symm hx
        · exact Or.inl h
      · exact Or.inr ((dict_get_update_other d x t (fetch_one provider x) hx).trans h)

/-! ## Claims about the metric calculator. -/

/-- C1: for every fetched symbol, if the short-resolution (1-day/1-minute)
history has fewer than 60 samples or the price is not positive, the hourly
change fields are both exactly zero; with at least 60 samples and a positive
price, `hourly_change_abs = price - hourly_hist.iloc[-60]` and
`hourly_change_pct = hourly_change_abs / hourly_hist.iloc[-60] * 100`. -/
theorem hourly_change_spec (pd : ProviderData) (s : Snapshot)
    (h : compute_snapshot pd = some s) :
    (pd.hourly_hist.length < 60 ∨ ¬ 0 < s.price →
      s.hourly_change_abs = 0 ∧ s.hourly_change_pct = 0) ∧
    (60 ≤ pd.hourly_hist.length → 0 < s.price →
      s.hourly_change_abs = s.price - pd.hourly_hist.getD (pd.hourly_hist.length - 60) 0 ∧
      s.hourly_change_pct =
        s.hourly_change_abs / pd.hourly_hist.getD (pd.hourly_hist.length - 60) 0 * 100) := by
  unfold compute_snapshot at h
  cases hr : resolve_price_open pd with
  | none => rw [hr] at h; exact absurd h (by simp)
  | some po =>
    obtain ⟨price, open_price⟩ := po
    rw [hr] at h
    simp only [Option.some.injEq] at h
    subst h
    unfold hourly_metrics
    by_cases hcond : 60 ≤ pd.hourly_hist.length ∧ 0 < price
    · rw [if_pos hcond]
      refine ⟨fun hneg => ?_, fun _ _ => ⟨rfl, rfl⟩⟩
      rcases hneg with hlen | hpos
      · exact absurd hcond.1 (by omega)
      · exact absurd hcond.2 hpos
    · rw [if_neg hcond]
      exact ⟨fun _ => ⟨rfl, rfl⟩, fun hlen hpos => absurd ⟨hlen, hpos⟩ hcond⟩

/-- Witness for C1 at a concrete provider response with 60 one-minute samples. -/
theorem hourly_change_spec_witness :
    compute_snapshot ⟨some 10, some 8, [], List.replicate 60 5⟩ =
      some ⟨10, 8, 2, 25, 5, 100, ChangeColor.green⟩ ∧
    (((List.replicate 60 (5 : ℚ)).length < 60 ∨ ¬ (0 : ℚ) < 10 →
        (5 : ℚ) = 0 ∧ (100 : ℚ) = 0) ∧
      (60 ≤ (List.replicate 60 (5 : ℚ)).length → (0 : ℚ) < 10 →
        (5 : ℚ) = 10 - (List.replicate 60 (5 : ℚ)).getD ((List.replicate 60 (5 : ℚ)).length - 60) 0 ∧
        (100 : ℚ) = 5 / (List.replicate 60 (5 : ℚ)).getD ((List.replicate 60 (5 : ℚ)).length - 60) 0 * 100)) := by
  have h : compute_snapshot ⟨some 10, some 8, [], List.replicate 60 5⟩ =
      some ⟨10, 8, 2, 25, 5, 100, ChangeColor.green⟩ := by
    norm_num [compute_snapshot, resolve_price_open, hourly_metrics]
  exact ⟨h, hourly_change_spec ⟨some 10, some 8, [], List.replicate 60 5⟩
    ⟨10, 8, 2, 25, 5, 100, ChangeColor.green⟩ h⟩

/-- C2: for every fetched symbol with a positive opening price,
`change_abs = price - open_price`, `daily_change_pct = change_abs / open_price * 100`,
and the gain/loss row tag is determined by the sign of `change_abs`
(gain when nonnegative, loss otherwise); the `color` field agrees. -/
theorem daily_change_spec (pd : ProviderData) (s : Snapshot)
    (h : compute_snapshot pd = some s) (hopen : 0 < s.open_price) :
    s.change_abs = s.price - s.open_price ∧
    s.daily_change_pct = s.change_abs / s.open_price * 100 ∧
    (row_tag (FetchEntry.ok s) = RowTag.gain ↔ 0 ≤ s.change_abs) ∧
    (row_tag (FetchEntry.ok s) = RowTag.loss ↔ s.change_abs < 0) ∧
    (s.color = ChangeColor.green ↔ 0 ≤ s.change_abs) := by
  unfold compute_snapshot at h
  cases hr : resolve_price_open pd with
  | none => rw [hr] at h; exact absurd h (by simp)
  | some po =>
    obtain ⟨price, open_price⟩ := po
    rw [hr] at h
    simp only [Option.some.injEq] at h
    subst h
    refine ⟨rfl, rfl, ?_, ?_, ?_⟩
    · unfold row_tag
      by_cases hc : (0 : ℚ) ≤ price - open_price
      · simp [hc]
      · simp [hc]
    · unfold row_tag
      by_cases hc : (0 : ℚ) ≤ price - open_price
      · simp [hc, not_lt.mpr hc]
      · simp [hc, lt_of_not_le hc]
    · by_cases hc : (0 : ℚ) ≤ price - open_price
      · simp [hc]
      · simp [hc]

/-- Witness for C2 at a concrete provider response. -/
theorem daily_change_spec_witness :
    (compute_snapshot ⟨some 10, some 8, [], []⟩ =
      some ⟨10, 8, 2, 25, 0, 0, ChangeColor.green⟩ ∧ (0 : ℚ) < 8) ∧
    ((2 : ℚ) = 10 - 8 ∧ (25 : ℚ) = 2 / 8 * 100 ∧
      (row_tag (FetchEntry.ok ⟨10, 8, 2, 25, 0, 0, ChangeColor.green⟩) = RowTag.gain ↔ (0 : ℚ) ≤ 2) ∧
      (row_tag (FetchEntry.ok ⟨10, 8, 2, 25, 0, 0, ChangeColor.green⟩) = RowTag.loss ↔ (2 : ℚ) < 0) ∧
      (ChangeColor.green = ChangeColor.green ↔ (0 : ℚ) ≤ 2)) := by
  have h : compute_snapshot ⟨some 10, some 8, [], []⟩ =
      some ⟨10, 8, 2, 25, 0, 0, ChangeColor.green⟩ := by
    norm_num [compute_snapshot, resolve_price_open, hourly_metrics]
  exact ⟨⟨h, by norm_num⟩,
    daily_change_spec ⟨some 10, some 8, [], []⟩ ⟨10, 8, 2, 25, 0, 0, ChangeColor.green⟩ h (by norm_num)⟩

/-- C3: for every fetched symbol, if the scalar current price or the scalar
opening price is absent from the provider response, the price falls back to
the last and the open to the first value of the long-resolution history; if
that history is empty the fetch is treated as failed (the `ValueError` is
raised, producing the error-flagged entry). -/
theorem price_fallback_spec (pd : ProviderData)
    (h : pd.regularMarketPrice = none ∨ pd.regularMarketOpen = none) :
    (pd.hist ≠ [] → ∃ s, compute_snapshot pd = some s ∧
      s.price = pd.hist.getLastD 0 ∧ s.open_price = pd.hist.headD 0) ∧
    (pd.hist = [] → compute_snapshot pd = none ∧ entry_of pd = FetchEntry.error) := by
  have hres : resolve_price_open pd =
      (if pd.hist.isEmpty then none
       else some (pd.hist.getLastD 0, pd.hist.headD 0)) := by
    unfold resolve_price_open
    rcases h with h | h
    · rw [h]
    · rw [h]
      cases pd.regularMarketPrice <;> rfl
  constructor
  · intro hne
    have hemp : pd.hist.isEmpty = false := by simpa using hne
    have hres2 : resolve_price_open pd = some (pd.hist.getLastD 0, pd.hist.headD 0) := by
      rw [hres, if_neg]
      simp [hemp]
    unfold compute_snapshot
    rw [hres2]
    exact ⟨_, rfl, rfl, rfl⟩
  · intro he
    have hemp : pd.hist.isEmpty = true := by simp [he]
    have hres2 : resolve_price_open pd = none := by
      rw [hres, if_pos hemp]
    have hcs : compute_snapshot pd = none := by
      unfold compute_snapshot
      rw [hres2]
    refine ⟨hcs, ?_⟩
    unfold entry_of
    rw [hcs]

/-- Witness for C3: the scalar price is absent and the long-resolution
history is `[3, 7]`, so price falls back to `7` and open to `3`. -/
theorem price_fallback_spec_witness :
    ((⟨none, some 8, [3, 7], []⟩ : ProviderData).regularMarketPrice = none ∨
      (⟨none, some 8, [3, 7], []⟩ : ProviderData).regularMarketOpen = none) ∧
    (((⟨none, some 8, [3, 7], []⟩ : ProviderData).hist ≠ [] →
      ∃ s, compute_snapshot ⟨none, some 8, [3, 7], []⟩ = some s ∧
        s.price = (⟨none, some 8, [3, 7], []⟩ : ProviderData).hist.getLastD 0 ∧
        s.open_price = (⟨none, some 8, [3, 7], []⟩ : ProviderData).hist.headD 0) ∧
     ((⟨none, some 8, [3, 7], []⟩ : ProviderData).hist = [] →
      compute_snapshot ⟨none, some 8, [3, 7], []⟩ = none ∧
        entry_of ⟨none, some 8, [3, 7], []⟩ = FetchEntry.error)) :=
  ⟨Or.inl rfl, price_fallback_spec ⟨none, some 8, [3, 7], []⟩ (Or.inl rfl)⟩

/-- C4: for every fetch batch, every tracked symbol receives exactly its own
per-symbol result in `new_data`; a symbol whose provider call raises gets the
error-flagged entry, and the loop (a total function) never propagates a
per-symbol failure — the remaining symbols still get their results. -/
theorem run_fetch_isolation (provider : List Char → Option ProviderData)
    (tickers : List (List Char)) (t : List Char) (ht : t ∈ tickers) :
    dict_get (run_fetch provider tickers) t = some (fetch_one provider t) ∧
    (provider t = none → dict_get (run_fetch provider tickers) t = some FetchEntry.error) := by
  have h : dict_get (run_fetch provider tickers) t = some (fetch_one provider t) :=
    run_fetch_lookup_aux provider tickers [] t (Or.inl ht)
  refine ⟨h, fun hp => ?_⟩
  rw [h]
  unfold fetch_one
  rw [hp]

/-- Witness for C4: batch `["AAA.AX", "BBB.AX"]` where the provider raises
for `BBB.AX`; `BBB.AX` gets the error entry while `AAA.AX` is unaffected. -/
theorem run_fetch_isolation_witness :
    (pstr "BBB.AX" ∈ [pstr "AAA.AX", pstr "BBB.AX"]) ∧
    (dict_get (run_fetch provW [pstr "AAA.AX", pstr "BBB.AX"]) (pstr "BBB.AX") =
      some (fetch_one provW (pstr "BBB.AX")) ∧
     (provW (pstr "BBB.AX") = none →
      dict_get (run_fetch provW [pstr "AAA.AX", pstr "BBB.AX"]) (pstr "BBB.AX") =
        some FetchEntry.error)) :=
  ⟨by decide,
   run_fetch_isolation provW [pstr "AAA.AX", pstr "BBB.AX"] (pstr "BBB.AX") (by decide)⟩

/-- C9: when `my_stocks.txt` does not exist, `load_stocks` returns the
built-in default list `['BHP.AX', 'PL8.AX']` — two tracked symbols, not an
empty list. -/
theorem load_stocks_default :
    load_stocks none = [pstr "BHP.AX", pstr "PL8.AX"] ∧
    load_stocks none ≠ [] ∧ (load_stocks none).length = 2 := by
  refine ⟨rfl, ?_, rfl⟩
  intro h
  simp [load_stocks] at h

/-- C6 (evaluation of the code at the failing state): starting from the sort
state `(price, sort_reverse := false)`, a redraw applies the ascending sort
but mutates the stored state to `(price, sort_reverse := true)`, so the next
redraw applies the descending sort — the direction alternates across redraws
instead of being preserved.  Moreover, from the post-click state
`(price, true)`, a header click on `price` applies the ascending sort and a
second click on `price` applies the ascending sort again — repeated clicks on
the sorted column never toggle the applied direction. -/
theorem sort_state_flip_bug :
    (update_main_monitor_sort ⟨SortCol.price, false⟩).2 ≠ ⟨SortCol.price, false⟩ ∧
    (update_main_monitor_sort ⟨SortCol.price, false⟩).1 = (SortCol.price, false) ∧
    (update_main_monitor_sort ⟨SortCol.price, false⟩).2 = ⟨SortCol.price, true⟩ ∧
    (update_main_monitor_sort (update_main_monitor_sort ⟨SortCol.price, false⟩).2).1
      = (SortCol.price, true) ∧
    (on_main_tree_header_click ⟨SortCol.price, true⟩ SortCol.price).1
      = (SortCol.price, false) ∧
    (on_main_tree_header_click
        (on_main_tree_header_click ⟨SortCol.price, true⟩ SortCol.price).2
        SortCol.price).1 = (SortCol.price, false) := by
  refine ⟨?_, rfl, rfl, rfl, rfl, rfl⟩
  intro h
  have : (true : Bool) = false := congrArg SortState.sort_reverse h
  exact Bool.noConfusion this

/-! ## Claims about `load_settings` (C7). -/

theorem py_split_char_length (sep : Char) (l acc : List Char) :
    (py_split_char sep l acc).length = l.count sep + 1 := by
  induction l generalizing acc with
  | nil => simp [py_split_char, List.count_nil]
  | cons c rest ih =>
    by_cases hc : c = sep
    · subst hc
      rw [py_split_char, if_pos rfl]
      simp only [List.length_cons, ih, List.count_cons_self]
    · rw [py_split_char, if_neg hc, ih]
      simp [List.count_cons, hc, Ne.symm hc]

theorem count_dropWhile_of_neg (p : Char → Bool) (a : Char) (ha : p a = false)
    (l : List Char) : (l.dropWhile p).count a = l.count a := by
  induction l with
  | nil => rfl
  | cons c rest ih =>
    by_cases hc : p c = true
    · rw [List.dropWhile_cons_of_pos hc, ih, List.count_cons]
      have : ¬ c = a := fun h => by rw [h, ha] at hc; exact Bool.noConfusion hc
      simp [this]
    · rw [List.dropWhile_cons_of_neg hc]

theorem count_pyStrip_eq (a : Char) (ha : isPyWs a = false) (l : List Char) :
    (pyStrip l).count a = l.count a := by
  unfold pyStrip pyStripBy
  rw [List.count_reverse, count_dropWhile_of_neg isPyWs a ha, List.count_reverse,
    count_dropWhile_of_neg isPyWs a ha]

theorem apply_setting_time_range (s : Settings) (k v : List Char) :
    (apply_setting s k v).time_range =
      if k = pstr "time_range" ∧ v ∈ TIME_RANGE_KEYS then v else s.time_range := by
  unfold apply_setting
  split
  · rfl
  · split <;> rfl

theorem apply_setting_timezone (s : Settings) (k v : List Char) :
    (apply_setting s k v).timezone =
      if k = pstr "timezone" ∧ v ∈ TIMEZONES then v else s.timezone := by
  unfold apply_setting
  split
  · next h => rw [if_neg (fun hc => absurd (h.1.symm.trans hc.1) (by decide))]
  · split <;> rfl

theorem last_recognized_cons2 (key : List Char) (allowed : List (List Char))
    (dflt k v : List Char) (rest : List (List (List Char))) :
    last_recognized key allowed dflt ([k, v] :: rest) =
      last_recognized key allowed (if k = key ∧ v ∈ allowed then v else dflt) rest := rfl

theorem last_recognized_mem (key : List Char) (allowed : List (List Char))
    (parts : List (List (List Char))) :
    ∀ dflt : List Char, dflt ∈ allowed →
    last_recognized key allowed dflt parts ∈ allowed := by
  induction parts with
  | nil =>
    intro dflt hd
    exact hd
  | cons p rest ih =>
    intro dflt hd
    rcases p with _ | ⟨k, tp⟩
    · exact ih dflt hd
    · rcases tp with _ | ⟨v, tq⟩
      · exact ih dflt hd
      · rcases tq with _ | ⟨w, tr⟩
        · refine ih (if k = key ∧ v ∈ allowed then v else dflt) ?_
          split
          · next hc => exact hc.2
          · exact hd
        · exact ih dflt hd

theorem apply_settings_lines_eq (parts : List (List (List Char))) :
    ∀ s : Settings, (∀ p ∈ parts, p.length = 2) →
    apply_settings_lines parts s = some
      { time_range :=
          last_recognized (pstr "time_range") TIME_RANGE_KEYS s.time_range parts
        timezone := last_recognized (pstr "timezone") TIMEZONES s.timezone parts } := by
  induction parts with
  | nil =>
    intro s _
    rfl
  | cons p rest ih =>
    intro s h
    obtain ⟨k, v, rfl⟩ := List.length_eq_two.mp (h _ (List.mem_cons_self _ _))
    show apply_settings_lines rest (apply_setting s k v) = _
    rw [ih (apply_setting s k v) (fun q hq => h q (List.mem_cons_of_mem _ hq)),
      apply_setting_time_range, apply_setting_timezone,
      last_recognized_cons2, last_recognized_cons2]

theorem settings_kv_parts_length (content : List Char)
    (h : ∀ l ∈ py_split_lines content [], l.count '=' ≤ 1) :
    ∀ p ∈ settings_kv_parts content, p.length = 2 := by
  intro p hp
  unfold settings_kv_parts at hp
  simp only [List.mem_map, List.mem_filter] at hp
  obtain ⟨l, ⟨hl, hcont⟩, rfl⟩ := hp
  have hmem : '=' ∈ l := by
    simpa [List.contains] using hcont
  have hone : l.count '=' = 1 := by
    have h1 := h l hl
    have h2 : 0 < l.count '=' := List.count_pos_iff.mpr hmem
    omega
  rw [py_split_char_length, count_pyStrip_eq '=' (by decide) l, hone]

/-- C7 (amended): provided no persisted-settings line contains more than one
`'='` character, `load_settings` terminates without raising an exception and
returns exactly the record in which malformed lines, unrecognized keys and
unrecognized values are ignored: `time_range` is the last persisted
`time_range` value that is one of the enumerated time ranges — the default
`"30 Days"` when there is none — and `timezone` likewise over the enumerated
timezones; both fields therefore always lie in their enumerations. -/
theorem load_settings_no_raise (content : List Char)
    (h : ∀ l ∈ py_split_lines content [], l.count '=' ≤ 1) :
    load_settings_content content = some
      { time_range := last_recognized (pstr "time_range") TIME_RANGE_KEYS
          DEFAULT_TIME_RANGE (settings_kv_parts content)
        timezone := last_recognized (pstr "timezone") TIMEZONES
          DEFAULT_TIMEZONE (settings_kv_parts content) } ∧
    last_recognized (pstr "time_range") TIME_RANGE_KEYS DEFAULT_TIME_RANGE
      (settings_kv_parts content) ∈ TIME_RANGE_KEYS ∧
    last_recognized (pstr "timezone") TIMEZONES DEFAULT_TIMEZONE
      (settings_kv_parts content) ∈ TIMEZONES := by
  refine ⟨?_, last_recognized_mem _ _ _ _ (by decide), last_recognized_mem _ _ _ _ (by decide)⟩
  exact apply_settings_lines_eq (settings_kv_parts content) default_settings
    (settings_kv_parts_length content h)

/-- Witness for C7 (amended) at a two-line settings file whose `time_range`
value is unrecognized (falls back to the default `"30 Days"`) and whose
`timezone` value is recognized (`"Australia/Perth"` is kept). -/
theorem load_settings_no_raise_witness :
    (∀ l ∈ py_split_lines (pstr "time_range=99 Days\ntimezone=Australia/Perth") [],
      l.count '=' ≤ 1) ∧
    (load_settings_content (pstr "time_range=99 Days\ntimezone=Australia/Perth") = some
      { time_range := last_recognized (pstr "time_range") TIME_RANGE_KEYS
          DEFAULT_TIME_RANGE
          (settings_kv_parts (pstr "time_range=99 Days\ntimezone=Australia/Perth"))
        timezone := last_recognized (pstr "timezone") TIMEZONES
          DEFAULT_TIMEZONE
          (settings_kv_parts (pstr "time_range=99 Days\ntimezone=Australia/Perth")) } ∧
     last_recognized (pstr "time_range") TIME_RANGE_KEYS DEFAULT_TIME_RANGE
      (settings_kv_parts (pstr "time_range=99 Days\ntimezone=Australia/Perth"))
        ∈ TIME_RANGE_KEYS ∧
     last_recognized (pstr "timezone") TIMEZONES DEFAULT_TIMEZONE
      (settings_kv_parts (pstr "time_range=99 Days\ntimezone=Australia/Perth"))
        ∈ TIMEZONES) ∧
    last_recognized (pstr "time_range") TIME_RANGE_KEYS DEFAULT_TIME_RANGE
      (settings_kv_parts (pstr "time_range=99 Days\ntimezone=Australia/Perth"))
        = pstr "30 Days" ∧
    last_recognized (pstr "timezone") TIMEZONES DEFAULT_TIMEZONE
      (settings_kv_parts (pstr "time_range=99 Days\ntimezone=Australia/Perth"))
        = pstr "Australia/Perth" :=
  ⟨by decide,
   load_settings_no_raise (pstr "time_range=99 Days\ntimezone=Australia/Perth") (by decide),
   by decide, by decide⟩

/-- Counterexample to C7 as stated: on the file content `a=b=c` the
`key, value` tuple unpacking raises `ValueError` (modelled by `none`), so
`load_settings` does not return a settings record for every file content. -/
theorem load_settings_raises_cex : load_settings_content (pstr "a=b=c") = none := by
  decide

/-! ## Character-level lemmas about the ASCII uppercase map. -/

theorem py_char_upper_cases (c : Char) :
    py_char_upper c = c ∨ py_char_upper c ∈ UPPER_AZ := by
  unfold py_char_upper
  split <;> first | (right; decide) | (left; rfl)

theorem isPyWs_py_char_upper (c : Char) : isPyWs (py_char_upper c) = isPyWs c := by
  unfold py_char_upper
  split <;> rfl

theorem py_char_upper_idem (c : Char) :
    py_char_upper (py_char_upper c) = py_char_upper c := by
  rcases py_char_upper_cases c with h | h
  · rw [h]
    exact h
  · have hfix : ∀ d ∈ UPPER_AZ, py_char_upper d = d := by decide
    exact hfix _ h

theorem py_char_upper_ne_newline (c : Char) (hn : c ≠ '\n') (hr : c ≠ '\r') :
    py_char_upper c ≠ '\n' ∧ py_char_upper c ≠ '\r' := by
  rcases py_char_upper_cases c with h | h
  · rw [h]
    exact ⟨hn, hr⟩
  · have hne : ∀ d ∈ UPPER_AZ, d ≠ '\n' ∧ d ≠ '\r' := by decide
    exact hne _ h

/-! ## Lemmas about two-sided stripping. -/

theorem mem_pyStripBy (p : Char → Bool) (l : List Char) (c : Char)
    (h : c ∈ pyStripBy p l) : c ∈ l := by
  unfold pyStripBy at h
  rw [List.mem_reverse] at h
  have h2 := (List.dropWhile_sublist p).mem h
  rw [List.mem_reverse] at h2
  exact (List.dropWhile_sublist p).mem h2

theorem dropWhile_head_false (p : Char → Bool) (l : List Char) (c : Char)
    (cs : List Char) (h : l.dropWhile p = c :: cs) : p c = false := by
  induction l with
  | nil => exact absurd h (by simp)
  | cons a rest ih =>
    by_cases ha : p a = true
    · rw [List.dropWhile_cons_of_pos ha] at h
      exact ih h
    · rw [List.dropWhile_cons_of_neg ha] at h
      obtain ⟨rfl, _⟩ := List.cons.inj h
      exact Bool.eq_false_iff.mpr ha

theorem dropWhile_eq_self_of_head (p : Char → Bool) (l : List Char)
    (h : ∀ c, l.head? = some c → p c = false) : l.dropWhile p = l := by
  cases l with
  | nil => rfl
  | cons c cs =>
    have := h c rfl
    rw [List.dropWhile_cons_of_neg (by rw [this]; exact Bool.false_ne_true)]

theorem pyStripBy_head_false (p : Char → Bool) (l : List Char) (c : Char)
    (h : (pyStripBy p l).head? = some c) : p c = false := by
  have h1 : ((l.dropWhile p).reverse.dropWhile p).getLast? = some c := by
    unfold pyStripBy at h
    rwa [List.head?_reverse] at h
  obtain ⟨pre, hpre⟩ := List.dropWhile_suffix (l := (l.dropWhile p).reverse) p
  have h2 : (l.dropWhile p).reverse.getLast? = some c := by
    rw [← hpre, List.getLast?_append, h1]
    rfl
  rw [List.getLast?_reverse] at h2
  cases hA : l.dropWhile p with
  | nil =>
    rw [hA] at h2
    exact absurd h2 (by simp)
  | cons a as =>
    rw [hA] at h2
    simp only [List.head?_cons, Option.some.injEq] at h2
    subst h2
    exact dropWhile_head_false p l a as hA

theorem pyStripBy_getLast_false (p : Char → Bool) (l : List Char) (c : Char)
    (h : (pyStripBy p l).getLast? = some c) : p c = false := by
  unfold pyStripBy at h
  rw [List.getLast?_reverse] at h
  cases hB : (l.dropWhile p).reverse.dropWhile p with
  | nil =>
    rw [hB] at h
    exact absurd h (by simp)
  | cons b bs =>
    rw [hB] at h
    simp only [List.head?_cons, Option.some.injEq] at h
    subst h
    exact dropWhile_head_false p _ b bs hB

theorem pyStripBy_idem (p : Char → Bool) (l : List Char) :
    pyStripBy p (pyStripBy p l) = pyStripBy p l := by
  have hd : (pyStripBy p l).dropWhile p = pyStripBy p l :=
    dropWhile_eq_self_of_head p _ (fun c hc => pyStripBy_head_false p l c hc)
  have hd2 : (pyStripBy p l).reverse.dropWhile p = (pyStripBy p l).reverse := by
    apply dropWhile_eq_self_of_head
    intro c hc
    rw [List.head?_reverse] at hc
    exact pyStripBy_getLast_false p l c hc
  show (((pyStripBy p l).dropWhile p).reverse.dropWhile p).reverse = pyStripBy p l
  rw [hd, hd2, List.reverse_reverse]

theorem dropWhile_map_upper (l : List Char) :
    (l.map py_char_upper).dropWhile isPyWs = (l.dropWhile isPyWs).map py_char_upper := by
  induction l with
  | nil => rfl
  | cons c rest ih =>
    by_cases hc : isPyWs c = true
    · rw [List.map_cons, List.dropWhile_cons_of_pos (by rw [isPyWs_py_char_upper]; exact hc),
        List.dropWhile_cons_of_pos hc, ih]
    · rw [List.map_cons, List.dropWhile_cons_of_neg (by rw [isPyWs_py_char_upper]; exact hc),
        List.dropWhile_cons_of_neg hc, List.map_cons]

theorem pyStrip_pyUpper_comm (l : List Char) :
    pyStrip (pyUpper l) = pyUpper (pyStrip l) := by
  unfold pyStrip pyStripBy pyUpper
  rw [dropWhile_map_upper, ← List.map_reverse, dropWhile_map_upper, ← List.map_reverse]

theorem pyUpper_idem (l : List Char) : pyUpper (pyUpper l) = pyUpper l := by
  unfold pyUpper
  rw [List.map_map]
  exact List.map_congr_left (fun a _ => py_char_upper_idem a)

/-! ## Lemmas about line joining and splitting. -/

theorem py_split_lines_cons_other (c : Char) (hn : c ≠ '\n') (hr : c ≠ '\r')
    (rest acc : List Char) :
    py_split_lines (c :: rest) acc = py_split_lines rest (c :: acc) := by
  conv_lhs => rw [py_split_lines.eq_def]
  split <;> first | rfl | simp_all

theorem py_split_lines_cons_nl (rest acc : List Char) :
    py_split_lines ('\n' :: rest) acc = acc.reverse :: py_split_lines rest [] := rfl

theorem py_split_lines_append (x : List Char) :
    ∀ (rest acc : List Char), (∀ c ∈ x, c ≠ '\n' ∧ c ≠ '\r') →
    py_split_lines (x ++ rest) acc = py_split_lines rest (x.reverse ++ acc) := by
  induction x with
  | nil =>
    intro rest acc _
    simp
  | cons c cs ih =>
    intro rest acc hx
    have hc := hx c (List.mem_cons_self c cs)
    rw [List.cons_append, py_split_lines_cons_other c hc.1 hc.2,
      ih rest (c :: acc) (fun d hd => hx d (List.mem_cons_of_mem c hd))]
    simp

theorem py_split_lines_join (L : List (List Char)) :
    L ≠ [] → (∀ l ∈ L, l ≠ [] ∧ ∀ c ∈ l, c ≠ '\n' ∧ c ≠ '\r') →
    py_split_lines (join_nl L) [] = L := by
  induction L with
  | nil =>
    intro hne _
    exact absurd rfl hne
  | cons x rest ih =>
    intro _ h
    cases rest with
    | nil =>
      have h1 := py_split_lines_append x [] [] (fun c hc => (h x (by simp)).2 c hc)
      rw [List.append_nil] at h1
      rw [show join_nl [x] = x from rfl, h1]
      simp [py_split_lines]
    | cons y rest2 =>
      have hx := h x (by simp)
      have h1 := py_split_lines_append x ('\n' :: join_nl (y :: rest2)) []
        (fun c hc => hx.2 c hc)
      rw [show join_nl (x :: y :: rest2) = x ++ '\n' :: join_nl (y :: rest2) from rfl, h1,
        py_split_lines_cons_nl,
        ih (by simp) (fun l hl => h l (List.mem_cons_of_mem x hl))]
      simp

/-! ## Lemmas about the sorted-deduplicating insertion. -/

theorem lex_lt_asymm_eq (x : List Char) :
    ∀ (y : List Char), lex_lt x y = false → lex_lt y x = false → x = y := by
  induction x with
  | nil =>
    intro y h1 _
    cases y with
    | nil => rfl
    | cons b bs => exact absurd h1 (by rw [lex_lt]; simp)
  | cons a as ih =>
    intro y h1 h2
    cases y with
    | nil => exact absurd h2 (by rw [lex_lt]; simp)
    | cons b bs =>
      rw [lex_lt] at h1 h2
      by_cases hab : a < b
      · rw [if_pos hab] at h1
        exact absurd h1 (by simp)
      · by_cases hba : b < a
        · rw [if_pos hba] at h2
          exact absurd h2 (by simp)
        · rw [if_neg hab, if_neg hba] at h1
          rw [if_neg hba, if_neg hab] at h2
          have hab2 : a = b := le_antisymm (not_lt.mp hba) (not_lt.mp hab)
          subst hab2
          rw [ih bs h1 h2]

theorem mem_insert_sd (x a : List Char) (l : List (List Char)) :
    a ∈ insert_sd x l ↔ a = x ∨ a ∈ l := by
  induction l with
  | nil => simp [insert_sd]
  | cons y ys ih =>
    by_cases h1 : lex_lt x y = true
    · rw [insert_sd, if_pos h1]
      simp [List.mem_cons]
    · by_cases h2 : lex_lt y x = true
      · rw [insert_sd, if_neg h1, if_pos h2]
        simp only [List.mem_cons, ih]
        tauto
      · rw [insert_sd, if_neg h1, if_neg h2]
        have hxy : x = y :=
          lex_lt_asymm_eq x y (Bool.eq_false_iff.mpr h1) (Bool.eq_false_iff.mpr h2)
        subst hxy
        simp [List.mem_cons]

theorem insert_sd_head_cases (x z : List Char) (l : List (List Char)) (zs : List (List Char))
    (h : insert_sd x l = z :: zs) : z = x ∨ l.head? = some z := by
  cases l with
  | nil =>
    rw [insert_sd] at h
    exact Or.inl (List.cons.inj h).1.symm
  | cons y ys =>
    rw [insert_sd] at h
    by_cases h1 : lex_lt x y = true
    · rw [if_pos h1] at h
      exact Or.inl (List.cons.inj h).1.symm
    · rw [if_neg h1] at h
      by_cases h2 : lex_lt y x = true
      · rw [if_pos h2] at h
        rw [← (List.cons.inj h).1]
        exact Or.inr rfl
      · rw [if_neg h2] at h
        rw [← (List.cons.inj h).1]
        exact Or.inr rfl

theorem chain_insert_sd (x : List Char) (l : List (List Char))
    (h : List.Chain' (fun a b => lex_lt a b = true) l) :
    List.Chain' (fun a b => lex_lt a b = true) (insert_sd x l) := by
  induction l with
  | nil => simp [insert_sd]
  | cons y ys ih =>
    by_cases h1 : lex_lt x y = true
    · rw [insert_sd, if_pos h1]
      exact List.chain'_cons.mpr ⟨h1, h⟩
    · by_cases h2 : lex_lt y x = true
      · rw [insert_sd, if_neg h1, if_pos h2]
        have hins := ih h.tail
        cases hz : insert_sd x ys with
        | nil => simp
        | cons z zs =>
          rw [hz] at hins
          apply List.chain'_cons.mpr
          refine ⟨?_, hins⟩
          rcases insert_sd_head_cases x z ys zs hz with hzx | hzh
          · rw [hzx]
            exact h2
          · have := List.chain'_cons'.mp h
            exact this.1 z hzh
      · rw [insert_sd, if_neg h1, if_neg h2]
        exact h

theorem sorted_dedup_chain (l : List (List Char)) :
    List.Chain' (fun a b => lex_lt a b = true) (sorted_dedup l) := by
  induction l with
  | nil => simp [sorted_dedup]
  | cons x xs ih => exact chain_insert_sd x (sorted_dedup xs) ih

theorem sorted_dedup_eq_self (l : List (List Char))
    (h : List.Chain' (fun a b => lex_lt a b = true) l) : sorted_dedup l = l := by
  induction l with
  | nil => rfl
  | cons x xs ih =>
    show insert_sd x (sorted_dedup xs) = x :: xs
    rw [ih h.tail]
    cases xs with
    | nil => rfl
    | cons y ys =>
      have hxy : lex_lt x y = true := (List.chain'_cons.mp h).1
      rw [insert_sd, if_pos hxy]

theorem mem_sorted_dedup (a : List Char) (l : List (List Char)) :
    a ∈ sorted_dedup l ↔ a ∈ l := by
  induction l with
  | nil => simp [sorted_dedup]
  | cons x xs ih =>
    show a ∈ insert_sd x (sorted_dedup xs) ↔ _
    rw [mem_insert_sd, ih]
    simp [List.mem_cons]

/-! ## Properties of the normalised ticker set. -/

theorem pyStrip_idem (l : List Char) : pyStrip (pyStrip l) = pyStrip l :=
  pyStripBy_idem isPyWs l

theorem normalize_entry_basic (ts : List (List Char)) (e : List Char)
    (he : e ∈ normalize_tickers ts) :
    e ≠ [] ∧ pyStrip e = e ∧ pyUpper e = e := by
  unfold normalize_tickers at he
  rw [mem_sorted_dedup] at he
  obtain ⟨t, ht, rfl⟩ := List.mem_map.mp he
  have htf := List.mem_filter.mp ht
  have hstrip : pyStrip t ≠ [] := by
    intro hcontra
    rw [hcontra] at htf
    simp at htf
  refine ⟨?_, ?_, pyUpper_idem (pyStrip t)⟩
  · intro hcontra
    exact hstrip (List.map_eq_nil_iff.mp hcontra)
  · rw [pyStrip_pyUpper_comm, pyStrip_idem]

theorem normalize_entry_newline_free (ts : List (List Char))
    (hnl : ∀ t ∈ ts, ∀ c ∈ t, c ≠ '\n' ∧ c ≠ '\r') (e : List Char)
    (he : e ∈ normalize_tickers ts) : ∀ c ∈ e, c ≠ '\n' ∧ c ≠ '\r' := by
  unfold normalize_tickers at he
  rw [mem_sorted_dedup] at he
  obtain ⟨t, ht, rfl⟩ := List.mem_map.mp he
  have htf := List.mem_filter.mp ht
  intro c hc
  obtain ⟨d, hd, rfl⟩ := List.mem_map.mp hc
  have hdt : d ∈ t := mem_pyStripBy isPyWs t d hd
  have hdn := hnl t htf.1 d hdt
  exact py_char_upper_ne_newline d hdn.1 hdn.2

theorem load_of_save_aux (ts : List (List Char))
    (hnl : ∀ t ∈ ts, ∀ c ∈ t, c ≠ '\n' ∧ c ≠ '\r') :
    load_stocks_content (save_stocks_content ts) = normalize_tickers ts := by
  by_cases hNe : normalize_tickers ts = []
  · show load_stocks_content (join_nl (normalize_tickers ts)) = normalize_tickers ts
    rw [hNe]
    rfl
  · have hsplit : py_split_lines (join_nl (normalize_tickers ts)) [] = normalize_tickers ts :=
      py_split_lines_join (normalize_tickers ts) hNe
        (fun l hl => ⟨(normalize_entry_basic ts l hl).1,
          normalize_entry_newline_free ts hnl l hl⟩)
    show sorted_dedup (((py_split_lines (join_nl (normalize_tickers ts)) []).filter
        (fun l => !(pyStrip l).isEmpty)).map (fun l => pyUpper (pyStrip l))) =
      normalize_tickers ts
    rw [hsplit]
    have hfil : (normalize_tickers ts).filter (fun l => !(pyStrip l).isEmpty)
        = normalize_tickers ts := by
      apply List.filter_eq_self.mpr
      intro a ha
      obtain ⟨hne, hs, _⟩ := normalize_entry_basic ts a ha
      rw [hs]
      simpa using hne
    rw [hfil]
    have hmap : (normalize_tickers ts).map (fun l => pyUpper (pyStrip l))
        = normalize_tickers ts := by
      have h1 : (normalize_tickers ts).map (fun l => pyUpper (pyStrip l))
          = (normalize_tickers ts).map id :=
        List.map_congr_left (fun a ha => by
          obtain ⟨_, hs, hu⟩ := normalize_entry_basic ts a ha
          rw [hs]
          exact hu)
      rw [h1, List.map_id]
    rw [hmap]
    exact sorted_dedup_eq_self (normalize_tickers ts)
      (sorted_dedup_chain ((ts.filter (fun t => !(pyStrip t).isEmpty)).map
        (fun t => pyUpper (pyStrip t))))

theorem normalize_tickers_idem (ts : List (List Char)) :
    normalize_tickers (normalize_tickers ts) = normalize_tickers ts := by
  show sorted_dedup (((normalize_tickers ts).filter
      (fun t => !(pyStrip t).isEmpty)).map (fun t => pyUpper (pyStrip t))) =
    normalize_tickers ts
  have hfil : (normalize_tickers ts).filter (fun l => !(pyStrip l).isEmpty)
      = normalize_tickers ts := by
    apply List.filter_eq_self.mpr
    intro a ha
    obtain ⟨hne, hs, _⟩ := normalize_entry_basic ts a ha
    rw [hs]
    simpa using hne
  rw [hfil]
  have hmap : (normalize_tickers ts).map (fun l => pyUpper (pyStrip l))
      = normalize_tickers ts := by
    have h1 : (normalize_tickers ts).map (fun l => pyUpper (pyStrip l))
        = (normalize_tickers ts).map id :=
      List.map_congr_left (fun a ha => by
        obtain ⟨_, hs, hu⟩ := normalize_entry_basic ts a ha
        rw [hs]
        exact hu)
    rw [h1, List.map_id]
  rw [hmap]
  exact sorted_dedup_eq_self (normalize_tickers ts)
    (sorted_dedup_chain ((ts.filter (fun t => !(pyStrip t).isEmpty)).map
      (fun t => pyUpper (pyStrip t))))

/-- C5 (amended): for every input list of ticker strings whose entries contain
no line separators (`'\n'` or `'\r'`), persisting with `save_stocks` and
reloading with `load_stocks` yields the sorted, deduplicated, uppercased,
whitespace-trimmed set of the non-empty input entries — independent of input
order, case, or duplicates — and reloading a persisted set returns it
unchanged.  (An entry containing a line separator is split into several
tickers on reload, which is the only failure of the original claim.) -/
theorem save_load_roundtrip (ts : List (List Char))
    (hnl : ∀ t ∈ ts, ∀ c ∈ t, c ≠ '\n' ∧ c ≠ '\r') :
    load_stocks_content (save_stocks_content ts) = normalize_tickers ts ∧
    load_stocks_content (save_stocks_content (normalize_tickers ts))
      = normalize_tickers ts := by
  refine ⟨load_of_save_aux ts hnl, ?_⟩
  rw [load_of_save_aux (normalize_tickers ts)
    (fun t ht => normalize_entry_newline_free ts hnl t ht), normalize_tickers_idem]

/-- Witness for C5 (amended) at the spec's example input
`["bhp.ax", "BHP.AX", "pl8.ax"]`, which round-trips to `["BHP.AX", "PL8.AX"]`. -/
theorem save_load_roundtrip_witness :
    (∀ t ∈ [pstr "bhp.ax", pstr "BHP.AX", pstr "pl8.ax"],
        ∀ c ∈ t, c ≠ '\n' ∧ c ≠ '\r') ∧
    (load_stocks_content (save_stocks_content [pstr "bhp.ax", pstr "BHP.AX", pstr "pl8.ax"])
        = normalize_tickers [pstr "bhp.ax", pstr "BHP.AX", pstr "pl8.ax"] ∧
     load_stocks_content (save_stocks_content
        (normalize_tickers [pstr "bhp.ax", pstr "BHP.AX", pstr "pl8.ax"]))
        = normalize_tickers [pstr "bhp.ax", pstr "BHP.AX", pstr "pl8.ax"]) ∧
    normalize_tickers [pstr "bhp.ax", pstr "BHP.AX", pstr "pl8.ax"]
        = [pstr "BHP.AX", pstr "PL8.AX"] :=
  ⟨by decide,
   save_load_roundtrip [pstr "bhp.ax", pstr "BHP.AX", pstr "pl8.ax"] (by decide),
   by decide⟩

/-- Counterexample to C5 as stated: the input entry `"B\nC"` contains a line
separator; persisting writes it verbatim and reloading splits it into the two
tickers `"B"` and `"C"`, which differs from the sorted, deduplicated,
uppercased, trimmed set of the input entries (`["B\nC"]`). -/
theorem save_load_roundtrip_cex :
    load_stocks_content (save_stocks_content [['B', '\n', 'C']])
      ≠ normalize_tickers [['B', '\n', 'C']] := by
  decide

/-! ## Claims about `add_stock` (C8). -/

theorem pyStripBy_eq_self (p : Char → Bool) (l : List Char)
    (h1 : ∀ c, l.head? = some c → p c = false)
    (h2 : ∀ c, l.getLast? = some c → p c = false) :
    pyStripBy p l = l := by
  have hd : l.dropWhile p = l := dropWhile_eq_self_of_head p l h1
  unfold pyStripBy
  rw [hd, dropWhile_eq_self_of_head p l.reverse
    (fun c hc => h2 c (by rwa [List.head?_reverse] at hc)), List.reverse_reverse]

theorem add_stock_normalize_suffix (entry : List Char)
    (h1 : pyUpper (pyStrip entry) ≠ []) (h2 : '.' ∉ pyUpper (pyStrip entry)) :
    add_stock_normalize entry = pyUpper (pyStrip entry) ++ pstr ".AX" := by
  show pyStripDots
      (if pyUpper (pyStrip entry) ≠ [] ∧ '.' ∉ pyUpper (pyStrip entry)
       then pyUpper (pyStrip entry) ++ pstr ".AX" else pyUpper (pyStrip entry))
    = pyUpper (pyStrip entry) ++ pstr ".AX"
  rw [if_pos ⟨h1, h2⟩]
  apply pyStripBy_eq_self
  · intro c hc
    cases ht : pyUpper (pyStrip entry) with
    | nil => exact absurd ht h1
    | cons a as =>
      rw [ht, List.cons_append, List.head?_cons, Option.some.injEq] at hc
      have hane : a ≠ '.' := fun hcontra =>
        h2 (by rw [ht, hcontra]; exact List.mem_cons_self _ _)
      rw [← hc]
      simpa using hane
  · intro c hc
    rw [List.getLast?_append] at hc
    have hx : (pstr ".AX").getLast? = some 'X' := rfl
    rw [hx] at hc
    simp only [Option.or_some, Option.some.injEq] at hc
    rw [← hc]
    decide

/-- C8 (amended): `add_stock` trims and uppercases the entry, suffixes it
with `.AX` exactly when the (nonempty) result contains no dot, and then
strips leading and trailing dots; the result is appended exactly when it is
nonempty and not already tracked, so tracked tickers stay unique — but a
ticker whose dots are all leading/trailing ends up without an exchange
marker (e.g. input `bhp.` yields the tracked ticker `BHP`). -/
theorem add_stock_spec (tickers : List (List Char)) (entry : List Char)
    (hnd : tickers.Nodup) :
    (add_stock tickers entry).Nodup ∧
    (add_stock tickers entry = tickers ++ [add_stock_normalize entry] ↔
      (add_stock_normalize entry ≠ [] ∧ add_stock_normalize entry ∉ tickers)) ∧
    (add_stock tickers entry = tickers ∨
      add_stock tickers entry = tickers ++ [add_stock_normalize entry]) ∧
    (pyUpper (pyStrip entry) ≠ [] → '.' ∉ pyUpper (pyStrip entry) →
      add_stock_normalize entry = pyUpper (pyStrip entry) ++ pstr ".AX") := by
  have hdef : add_stock tickers entry =
      if add_stock_normalize entry ≠ [] ∧ add_stock_normalize entry ∉ tickers
      then tickers ++ [add_stock_normalize entry] else tickers := rfl
  refine ⟨?_, ?_, ?_, fun h1 h2 => add_stock_normalize_suffix entry h1 h2⟩
  · rw [hdef]
    split
    · next h =>
      simp [List.nodup_append, hnd, h.2]
    · exact hnd
  · constructor
    · intro heq
      by_cases hcond : add_stock_normalize entry ≠ [] ∧ add_stock_normalize entry ∉ tickers
      · exact hcond
      · rw [hdef, if_neg hcond] at heq
        have hlen : tickers.length = (tickers ++ [add_stock_normalize entry]).length :=
          congrArg List.length heq
        rw [List.length_append] at hlen
        simp at hlen
    · intro hcond
      rw [hdef, if_pos hcond]
  · rw [hdef]
    split
    · exact Or.inr rfl
    · exact Or.inl rfl

/-- Witness for C8 (amended) at the entry `" wbc "`, which is trimmed,
uppercased, suffixed and appended. -/
theorem add_stock_spec_witness :
    ([pstr "BHP.AX"].Nodup) ∧
    ((add_stock [pstr "BHP.AX"] (pstr " wbc ")).Nodup ∧
     (add_stock [pstr "BHP.AX"] (pstr " wbc ")
         = [pstr "BHP.AX"] ++ [add_stock_normalize (pstr " wbc ")] ↔
       (add_stock_normalize (pstr " wbc ") ≠ [] ∧
        add_stock_normalize (pstr " wbc ") ∉ [pstr "BHP.AX"])) ∧
     (add_stock [pstr "BHP.AX"] (pstr " wbc ") = [pstr "BHP.AX"] ∨
      add_stock [pstr "BHP.AX"] (pstr " wbc ")
         = [pstr "BHP.AX"] ++ [add_stock_normalize (pstr " wbc ")]) ∧
     (pyUpper (pyStrip (pstr " wbc ")) ≠ [] → '.' ∉ pyUpper (pyStrip (pstr " wbc ")) →
       add_stock_normalize (pstr " wbc ")
         = pyUpper (pyStrip (pstr " wbc ")) ++ pstr ".AX")) :=
  ⟨by decide, add_stock_spec [pstr "BHP.AX"] (pstr " wbc ") (by decide)⟩

/-- Counterexample to C8 as stated: the entry `"bhp."` contains a dot, so no
`.AX` suffix is added, and `strip('.')` then removes the only dot; the
appended tracked ticker `"BHP"` carries no exchange marker. -/
theorem add_stock_no_marker_cex :
    add_stock [pstr "BHP.AX"] (pstr "bhp.") = [pstr "BHP.AX", pstr "BHP"] ∧
    '.' ∉ pstr "BHP" := by
  decide

/-! ## Claims about `remove_stock` and the aggregate view (C10). -/

theorem dict_get_filter_self {β : Type} (d : List (List Char × β)) (k : List Char) :
    dict_get (d.filter (fun p => p.1 ≠ k)) k = none := by
  induction d with
  | nil => rfl
  | cons p rest ih =>
    obtain ⟨k0, v0⟩ := p
    rw [List.filter_cons]
    by_cases hp : k0 = k
    · rw [if_neg (by simp [hp])]
      exact ih
    · rw [if_pos (by simp [hp])]
      simp only [dict_get]
      rw [if_neg hp]
      exact ih

theorem dict_get_eq_none_of_not_any {β : Type} (d : List (List Char × β)) (k : List Char)
    (h : d.any (fun p => p.1 = k) = false) : dict_get d k = none := by
  induction d with
  | nil => rfl
  | cons p rest ih =>
    obtain ⟨k0, v0⟩ := p
    rw [List.any_cons] at h
    rw [Bool.or_eq_false_iff] at h
    simp only [dict_get]
    rw [if_neg (by simpa using h.1)]
    exact ih h.2

/-- C10: `remove_stock` on a tracked, non-Main-Monitor tab removes the symbol
from the tracked-ticker list and from the chart-visibility map and persists
the updated list, but leaves the snapshot table `all_stock_data` untouched;
since the aggregate view iterates the snapshot table, the removed symbol is
still among the rendered rows. -/
theorem remove_stock_frame (st : AppState) (sel : List Char)
    (h1 : sel ∈ st.tickers) (h2 : sel ≠ pstr "Main Monitor") :
    (remove_stock st sel).1.tickers = st.tickers.erase sel ∧
    dict_get (remove_stock st sel).1.line_visibility sel = none ∧
    (remove_stock st sel).1.all_stock_data = st.all_stock_data ∧
    (remove_stock st sel).2 = some (save_stocks_content (st.tickers.erase sel)) ∧
    (sel ∈ st.all_stock_data.map Prod.fst →
      sel ∈ main_monitor_tickers (remove_stock st sel).1) := by
  have hdef : remove_stock st sel =
      ({ tickers := st.tickers.erase sel
         line_visibility :=
           if st.line_visibility.any (fun p => p.1 = sel) then
             st.line_visibility.filter (fun p => p.1 ≠ sel)
           else st.line_visibility
         all_stock_data := st.all_stock_data },
       some (save_stocks_content (st.tickers.erase sel))) := by
    unfold remove_stock
    rw [if_neg h2, if_pos h1]
  rw [hdef]
  refine ⟨rfl, ?_, rfl, rfl, ?_⟩
  · show dict_get
      (if st.line_visibility.any (fun p => p.1 = sel) then
        st.line_visibility.filter (fun p => p.1 ≠ sel)
       else st.line_visibility) sel = none
    split
    · exact dict_get_filter_self st.line_visibility sel
    · next hv =>
        exact dict_get_eq_none_of_not_any st.line_visibility sel (Bool.eq_false_iff.mpr hv)
  · intro hk
    show sel ∈ sorted_dedup (st.all_stock_data.map Prod.fst)
    rw [mem_sorted_dedup]
    exact hk

/-- Witness for C10 at a concrete two-symbol state: removing `BBB.AX` keeps
its error row in the snapshot table and thus in the rendered aggregate rows. -/
theorem remove_stock_frame_witness :
    (pstr "BBB.AX" ∈
      (⟨[pstr "AAA.AX", pstr "BBB.AX"],
        [(pstr "AAA.AX", true), (pstr "BBB.AX", true)],
        [(pstr "AAA.AX", FetchEntry.error), (pstr "BBB.AX", FetchEntry.error)]⟩ :
          AppState).tickers ∧
     pstr "BBB.AX" ≠ pstr "Main Monitor") ∧
    ((remove_stock
        ⟨[pstr "AAA.AX", pstr "BBB.AX"],
         [(pstr "AAA.AX", true), (pstr "BBB.AX", true)],
         [(pstr "AAA.AX", FetchEntry.error), (pstr "BBB.AX", FetchEntry.error)]⟩
        (pstr "BBB.AX")).1.tickers
        = [pstr "AAA.AX", pstr "BBB.AX"].erase (pstr "BBB.AX") ∧
     dict_get (remove_stock
        ⟨[pstr "AAA.AX", pstr "BBB.AX"],
         [(pstr "AAA.AX", true), (pstr "BBB.AX", true)],
         [(pstr "AAA.AX", FetchEntry.error), (pstr "BBB.AX", FetchEntry.error)]⟩
        (pstr "BBB.AX")).1.line_visibility (pstr "BBB.AX") = none ∧
     (remove_stock
        ⟨[pstr "AAA.AX", pstr "BBB.AX"],
         [(pstr "AAA.AX", true), (pstr "BBB.AX", true)],
         [(pstr "AAA.AX", FetchEntry.error), (pstr "BBB.AX", FetchEntry.error)]⟩
        (pstr "BBB.AX")).1.all_stock_data
        = [(pstr "AAA.AX", FetchEntry.error), (pstr "BBB.AX", FetchEntry.error)] ∧
     (remove_stock
        ⟨[pstr "AAA.AX", pstr "BBB.AX"],
         [(pstr "AAA.AX", true), (pstr "BBB.AX", true)],
         [(pstr "AAA.AX", FetchEntry.error), (pstr "BBB.AX", FetchEntry.error)]⟩
        (pstr "BBB.AX")).2
        = some (save_stocks_content ([pstr "AAA.AX", pstr "BBB.AX"].erase (pstr "BBB.AX"))) ∧
     (pstr "BBB.AX" ∈
        [(pstr "AAA.AX", FetchEntry.error), (pstr "BBB.AX", FetchEntry.error)].map Prod.fst →
      pstr "BBB.AX" ∈ main_monitor_tickers (remove_stock
        ⟨[pstr "AAA.AX", pstr "BBB.AX"],
         [(pstr "AAA.AX", true), (pstr "BBB.AX", true)],
         [(pstr "AAA.AX", FetchEntry.error), (pstr "BBB.AX", FetchEntry.error)]⟩
        (pstr "BBB.AX")).1)) :=
  ⟨⟨by decide, by decide⟩,
   remove_stock_frame
     ⟨[pstr "AAA.AX", pstr "BBB.AX"],
      [(pstr "AAA.AX", true), (pstr "BBB.AX", true)],
      [(pstr "AAA.AX", FetchEntry.error), (pstr "BBB.AX", FetchEntry.error)]⟩
     (pstr "BBB.AX") (by decide) (by decide)⟩
